import Mathlib

/-!
Shallow embedding of two MultiQC plugin source files:
`multiqc/modules/bbmap/plot_idhist.py` and `multiqc/modules/readqc/readqc.py`.

Modelling conventions:
- Python dicts are association lists (`List (key × value)`) with Python's
  update semantics: assignment overwrites in place, otherwise appends, so
  insertion order is preserved.
- Python floats are modelled as rationals; the string coercion `float(...)`
  of the standard library is an explicit parameter (`fp`) of the embedding,
  since only success/failure and the parsed number matter to the module.
- Fallible steps (`KeyError`, `TypeError`, the `raise UserWarning` used as a
  "no data" signal) are modelled with `Except ModErr`.
- Host-framework services (file discovery, `clean_s_name`, `ignore_samples`,
  rendering) are inputs: the module receives already-cleaned sample names with
  parsed documents, and `ignore_samples` is a caller-supplied predicate.
-/

/-- Python dict lookup `d[k]`; `none` models a `KeyError`. -/
def dictGet {α : Type} : List (String × α) → String → Option α
  | [], _ => none
  | p :: d, k => if p.1 = k then some p.2 else dictGet d k

/-- Python dict membership test `k in d`. -/
def dictMem {α : Type} : List (String × α) → String → Bool
  | [], _ => false
  | p :: d, k => if p.1 = k then true else dictMem d k

/-- Python dict assignment `d[k] = v`: overwrite in place, else append. -/
def dictSet {α : Type} : List (String × α) → String → α → List (String × α)
  | [], k, v => [(k, v)]
  | p :: d, k, v => if p.1 = k then (k, v) :: d else p :: dictSet d k v

/-- Python `d.pop(k)` with no default: remove the entry for `k`; `none`
models the `KeyError` raised when `k` is absent. -/
def dictPop {α : Type} (d : List (String × α)) (k : String) :
    Option (List (String × α)) :=
  if dictMem d k then some (d.filter (fun p => !decide (p.1 = k))) else none

/-- Python `list(d.keys())`. -/
def dictKeys {α : Type} (d : List (String × α)) : List String := d.map Prod.fst

/-- Python substring test `pat in s`. -/
def pyIn (pat s : String) : Bool := decide (pat.data <:+: s.data)

/-- Python `s.startswith(pre)`. -/
def pyStartswith (s pre : String) : Bool := decide (pre.data <+: s.data)

/-- Python `s.endswith(suf)`; used below to express the anchored `re` match. -/
def pyEndsWith (s suf : String) : Bool := decide (suf.data <:+ s.data)

/-- Embedding of `re.sub(r' percentage$', ' %', name)`.  In Python's `re`,
an unanchored-flags `$` matches at the end of the string or just before a
newline that ends the string, so the pattern matches exactly the names ending
in " percentage" and the names ending in " percentage\n" (the replaced span is
the " percentage" occurrence; a trailing newline survives). -/
def renameParam (s : String) : String :=
  if pyEndsWith s " percentage" then
    String.mk (s.data.take (s.data.length - 11) ++ (" %").data)
  else if pyEndsWith s " percentage\n" then
    String.mk (s.data.take (s.data.length - 12) ++ (" %\n").data)
  else s

/-- One qcML XML element, reduced to the attributes the module reads.
`name` and `value` are accessed unconditionally in the source (a missing one
would be a fatal `KeyError` before any behaviour modelled here); `description`
and `accession` are optional. -/
structure QcElement where
  name : String
  value : String
  description : Option String
  accession : Option String
deriving DecidableEq

/-- A parsed qcML document: the elements found by `root.findall` for the two
namespaced tags the module queries, in document order. -/
structure QcmlDoc where
  qualityParams : List QcElement
  metaDataParams : List QcElement
deriving DecidableEq

/-- A value in the per-sample table: `float(value)` on success, else the raw
attribute string. -/
inductive QcValue where
  | num (q : ℚ)
  | str (s : String)
deriving DecidableEq

/-- Metadata recorded per parameter name by `add_attribute`:
description and accession, defaulting to the empty string. -/
structure PMeta where
  description : String
  accession : String
deriving DecidableEq

/-- Loop body of `QcmlMultiqcModule.parse_qcml_by`: skip values starting with
"n/a", rename the parameter, coerce the value, and record metadata. The
accumulator is the pair (parameters so far, shared `self.qcml` table). -/
def parseStep (fp : String → Option ℚ)
    (acc : List (String × QcValue) × List (String × PMeta)) (e : QcElement) :
    List (String × QcValue) × List (String × PMeta) :=
  if pyStartswith e.value "n/a" then acc
  else
    let qpName := renameParam e.name
    let v : QcValue :=
      match fp e.value with
      | some q => QcValue.num q
      | none => QcValue.str e.value
    (dictSet acc.1 qpName v,
     dictSet acc.2 qpName ⟨(e.description).getD "", (e.accession).getD ""⟩)

/-- `QcmlMultiqcModule.parse_qcml_by(qcml_contents, tag)`, applied to the
elements matching the requested tag (the module calls it with
"qualityParameter").  Returns the per-sample parameter dict and the updated
shared `self.qcml` metadata table. -/
def parse_qcml_by (fp : String → Option ℚ) (qcml0 : List (String × PMeta))
    (elems : List QcElement) :
    List (String × QcValue) × List (String × PMeta) :=
  elems.foldl (parseStep fp) ([], qcml0)

/-- The "source file" collection loop of `get_read_type`: metaDataParameter
elements, skipping values starting with "n/a", keeping those named
"source file". -/
def sourceFilesOf (doc : QcmlDoc) : List String :=
  (doc.metaDataParams.filter
      (fun e => !(pyStartswith e.value "n/a") && (e.name == "source file"))).map
    QcElement.value

/-- Loop body of the R1/R2 scan in `get_read_type`: note the `elif` — a file
containing "R1" is never tested for "R2". -/
def rtStep (p : Bool × Bool) (f : String) : Bool × Bool :=
  if pyIn "R1" f then (true, p.2)
  else if pyIn "R2" f then (p.1, true)
  else p

/-- `QcmlMultiqcModule.get_read_type(qcml_contents)`. -/
def get_read_type (doc : QcmlDoc) : String :=
  let flags := (sourceFilesOf doc).foldl rtStep (false, false)
  if flags.1 && flags.2 then "paired-end"
  else if flags.1 || flags.2 then "single"
  else "unknown"

/-- Error outcomes of the ReadQC module body: the `raise UserWarning` used as
the "no data" signal, `KeyError`, and `TypeError`. -/
inductive ModErr where
  | noData
  | keyError (k : String)
  | typeError
deriving DecidableEq

/-- The per-sample body of the derived-metric loop in `MultiqcModule.__init__`:
`kv['bases sequenced'] = kv['bases sequenced (MB)'] * 1e6`, then the read-type
dependent `kv['cluster count']`, then `kv.pop('bases sequenced (MB)')`. -/
def processRow (readType : String) (kv : List (String × QcValue)) :
    Except ModErr (List (String × QcValue)) :=
  match dictGet kv "bases sequenced (MB)" with
  | none => Except.error (ModErr.keyError "bases sequenced (MB)")
  | some (QcValue.str _) => Except.error ModErr.typeError
  | some (QcValue.num q) =>
    let kv1 := dictSet kv "bases sequenced" (QcValue.num (q * 1000000))
    let next : Except ModErr (List (String × QcValue)) :=
      if readType = "single" then
        match dictGet kv1 "read count" with
        | some rc => Except.ok (dictSet kv1 "cluster count" rc)
        | none => Except.error (ModErr.keyError "read count")
      else if readType = "paired-end" then
        match dictGet kv1 "read count" with
        | some (QcValue.num r) =>
          Except.ok (dictSet kv1 "cluster count" (QcValue.num (r / 2)))
        | some (QcValue.str _) => Except.error ModErr.typeError
        | none => Except.error (ModErr.keyError "read count")
      else Except.ok kv1
    match next with
    | Except.error e => Except.error e
    | Except.ok kv2 =>
      match dictPop kv2 "bases sequenced (MB)" with
      | some kv3 => Except.ok kv3
      | none => Except.error (ModErr.keyError "bases sequenced (MB)")

/-- One discovered log file, after host-side name cleaning. -/
structure ModFile where
  s_name : String
  doc : QcmlDoc
deriving DecidableEq

/-- The accumulating state of the parse loop in `MultiqcModule.__init__`:
`self.qcml`, `self.qcdata`, `self.read_types`. -/
structure ParseState where
  qcml : List (String × PMeta)
  qcdata : List (String × List (String × QcValue))
  read_types : List (String × String)

/-- One iteration of the file loop of `MultiqcModule.__init__`. -/
def parsePassStep (fp : String → Option ℚ) (st : ParseState) (f : ModFile) :
    ParseState :=
  let pr := parse_qcml_by fp st.qcml f.doc.qualityParams
  { qcml := pr.2
    qcdata := dictSet st.qcdata f.s_name pr.1
    read_types := dictSet st.read_types f.s_name (get_read_type f.doc) }

/-- The full parse pass over all discovered files. -/
def parsePass (fp : String → Option ℚ) (files : List ModFile) : ParseState :=
  files.foldl (parsePassStep fp) ⟨[], [], []⟩

/-- `self.qcdata` after `ignore_samples` (host-provided filtering by name). -/
def filteredQcdata (fp : String → Option ℚ) (files : List ModFile)
    (keep : String → Bool) : List (String × List (String × QcValue)) :=
  (parsePass fp files).qcdata.filter (fun p => keep p.1)

/-- Sequential fail-fast traversal, modelling a Python `for` loop whose body
may raise. -/
def exMapList {α β : Type} (f : α → Except ModErr β) :
    List α → Except ModErr (List β)
  | [] => Except.ok []
  | x :: xs =>
    match f x with
    | Except.error e => Except.error e
    | Except.ok y =>
      match exMapList f xs with
      | Except.error e => Except.error e
      | Except.ok ys => Except.ok (y :: ys)

/-- The derived-metric loop body for one `(s_name, kv)` item of `self.qcdata`:
look up the read type, then run the per-row mutations. -/
def rowStep (read_types : List (String × String))
    (p : String × List (String × QcValue)) :
    Except ModErr (String × List (String × QcValue)) :=
  match dictGet read_types p.1 with
  | none => Except.error (ModErr.keyError p.1)
  | some rt =>
    match processRow rt p.2 with
    | Except.error e => Except.error e
    | Except.ok kv => Except.ok (p.1, kv)

/-- The keys whose header entries receive `.update(...)` display hints in
`MultiqcModule.__init__`, in program order; each such subscript raises
`KeyError` when the key is missing from the headers dict (whose keys are
exactly those of `self.qcml`). -/
def mandatoryHeaderKeys : List String :=
  ["read count", "cluster count", "bases sequenced", "gc content %",
   "Q20 read %", "Q30 base %", "read length", "no base call %"]

/-- The sequence of `headers[...].update(...)` subscripts. -/
def checkHeaderKeys (qcml : List (String × PMeta)) :
    List String → Except ModErr Unit
  | [] => Except.ok ()
  | k :: ks =>
    if dictMem qcml k then checkHeaderKeys qcml ks
    else Except.error (ModErr.keyError k)

/-- Result of a successful module run: the processed per-sample value table
and the keys of the table header configuration (built from `self.qcml`). -/
structure ModOut where
  qcdata : List (String × List (String × QcValue))
  headerKeys : List String
deriving DecidableEq

/-- `MultiqcModule.__init__` after the parse pass: the empty-data check
(`raise UserWarning`), `self.qcml.pop('bases sequenced (MB)')`, insertion of
the two derived header entries, the per-sample derived-metric loop, and the
header `.update` subscripts, in program order. -/
def moduleInit (fp : String → Option ℚ) (files : List ModFile)
    (keep : String → Bool) : Except ModErr ModOut :=
  let st := parsePass fp files
  let qcdata := filteredQcdata fp files keep
  if qcdata.isEmpty then Except.error ModErr.noData
  else
    match dictPop st.qcml "bases sequenced (MB)" with
    | none => Except.error (ModErr.keyError "bases sequenced (MB)")
    | some qcml1 =>
      let qcml3 :=
        dictSet (dictSet qcml1 "bases sequenced" ⟨"Bases sequenced in total.", ""⟩)
          "cluster count" ⟨"Total number of clusters.", ""⟩
      match exMapList (rowStep st.read_types) qcdata with
      | Except.error e => Except.error e
      | Except.ok rows =>
        match checkHeaderKeys qcml3 mandatoryHeaderKeys with
        | Except.error e => Except.error e
        | Except.ok _ => Except.ok ⟨rows, dictKeys qcml3⟩

/-- One sample of the BBMap idhist input: the sample name and the items of
its "data" dict, `x` mapped to the pair (read count, base count), in
insertion order. -/
structure HistSample where
  name : String
  data : List (ℚ × ℚ × ℚ)
deriving DecidableEq

/-- Lookup `x in samples[sample]["data"]` / `samples[sample]["data"][x]`. -/
def histGet (d : List (ℚ × ℚ × ℚ)) (x : ℚ) : Option (ℚ × ℚ) :=
  match d with
  | [] => none
  | t :: d2 => if t.1 = x then some t.2 else histGet d2 x

/-- All x-values occurring in any sample (with multiplicity; `all_x` in the
source is the set of these). -/
def xUnion (samples : List HistSample) : List ℚ :=
  (samples.map (fun s => s.data.map Prod.fst)).flatten

/-- One entry of a `plot_idhist` series: key `sample + "." + "Count"`, value
the dict built over the iteration order `enum` of the set `all_x`, with 0 for
x-values missing from this sample. `col` selects column 0 (Reads) or 1
(Bases). -/
def idhistRow (col : ℚ × ℚ → ℚ) (enum : List ℚ) (s : HistSample) :
    String × List (ℚ × ℚ) :=
  (s.name ++ "." ++ "Count",
   enum.map (fun x =>
     (x, match histGet s.data x with
         | some v => col v
         | none => 0)))

/-- The `plot_data` list built by `plot_idhist`: the Reads series (column
index 0) then the Bases series (column index 1).  `enum` is the iteration
order of the Python set `all_x`; CPython only guarantees that it enumerates
each member of the set exactly once, so it is a parameter here, constrained
in the theorems below. -/
def plot_idhist (enum : List ℚ) (samples : List HistSample) :
    List (List (String × List (ℚ × ℚ))) :=
  [samples.map (idhistRow Prod.fst enum), samples.map (idhistRow Prod.snd enum)]

/-- The x-keys of one per-sample series mapping. -/
def xKeys (row : List (ℚ × ℚ)) : List ℚ := row.map Prod.fst

/-- A parameter name is recorded from a document: some qualityParameter
element survives the "n/a" skip and renames to it. -/
def paramMemD (doc : QcmlDoc) (n : String) : Prop :=
  ∃ e ∈ doc.qualityParams,
    pyStartswith e.value "n/a" = false ∧ renameParam e.name = n

/-- A concrete stand-in for `float(...)` used by the concrete evaluations
below: parses the handful of numerals appearing in the test documents. -/
def fpTest (s : String) : Option ℚ :=
  if s = "1000" then some 1000
  else if s = "100" then some 100
  else if s = "50" then some 50
  else if s = "2.5" then some (5 / 2)
  else none

def keepAll : String → Bool := fun _ => true

def keepNone : String → Bool := fun _ => false

/-- Concrete qcML document: a sample with all hinted parameters whose read
type is "unknown" (its only source file contains neither "R1" nor "R2"). -/
def c4cDoc : QcmlDoc := ⟨[
  ⟨"read count", "1000", some "Total number of reads.", some "QC:2000005"⟩,
  ⟨"bases sequenced (MB)", "100", none, none⟩,
  ⟨"gc content percentage", "50", none, none⟩,
  ⟨"Q20 read percentage", "50", none, none⟩,
  ⟨"Q30 base percentage", "50", none, none⟩,
  ⟨"read length", "100", none, none⟩,
  ⟨"no base call percentage", "50", none, none⟩],
  [⟨"source file", "a.fastq", none, none⟩]⟩

/-- The same parameters with a paired-end source-file pair. -/
def c4wDoc : QcmlDoc := ⟨c4cDoc.qualityParams,
  [⟨"source file", "a_R1.fastq", none, none⟩,
   ⟨"source file", "a_R2.fastq", none, none⟩]⟩

/-- The same parameters plus one extra parameter, single-end. -/
def c4cDoc2 : QcmlDoc :=
  ⟨c4cDoc.qualityParams ++ [⟨"extra metric", "50", none, none⟩],
   [⟨"source file", "a_R1.fastq", none, none⟩]⟩

def c4cFiles : List ModFile := [⟨"s1", c4cDoc⟩]

def c4cFiles2 : List ModFile := [⟨"s1", c4cDoc2⟩, ⟨"s2", c4wDoc⟩]

def c4wFiles : List ModFile := [⟨"s1", c4wDoc⟩]

/-- The module output of the successful run on `c4wFiles`. -/
def c4wOut : ModOut :=
  match moduleInit fpTest c4wFiles keepAll with
  | Except.ok o => o
  | Except.error _ => ⟨[], []⟩

/-- A document with no 'bases sequenced (MB)' parameter: parsing succeeds but
the derived-metric step would raise a `KeyError`. -/
def c9Doc : QcmlDoc := ⟨[⟨"read count", "1000", none, none⟩], []⟩

def c9Files : List ModFile := [⟨"s1", c9Doc⟩]

/-- Two idhist samples with disjoint x-values. -/
def c2Samples : List HistSample := [⟨"a", [(1, 2, 3)]⟩, ⟨"b", [(5, 6, 7)]⟩]

theorem dictGet_dictSet_self {α : Type} (d : List (String × α)) (k : String) (v : α) :
    dictGet (dictSet d k v) k = some v := by
  induction d with
  | nil => simp [dictGet, dictSet]
  | cons p d ih =>
    by_cases h : p.1 = k
    · simp [dictSet, h, dictGet]
    · simp [dictSet, h, dictGet, ih]

theorem dictGet_dictSet_ne {α : Type} (d : List (String × α)) (k k2 : String) (v : α)
    (h : k2 ≠ k) : dictGet (dictSet d k v) k2 = dictGet d k2 := by
  induction d with
  | nil => simp [dictGet, dictSet, Ne.symm h]
  | cons p d ih =>
    by_cases hp : p.1 = k
    · have hp2 : p.1 ≠ k2 := by rw [hp]; exact Ne.symm h
      simp [dictSet, hp, dictGet, Ne.symm h, hp2]
    · simp only [dictSet, if_neg hp]
      by_cases hq : p.1 = k2
      · simp [dictGet, hq]
      · simp [dictGet, hq, ih]

theorem dictMem_eq_false_iff {α : Type} (d : List (String × α)) (k : String) :
    dictMem d k = false ↔ dictGet d k = none := by
  induction d with
  | nil => simp [dictMem, dictGet]
  | cons p d ih =>
    by_cases h : p.1 = k
    · simp [dictMem, dictGet, h]
    · simp [dictMem, dictGet, h, ih]

theorem dictMem_eq_true_iff {α : Type} (d : List (String × α)) (k : String) :
    dictMem d k = true ↔ ∃ v, dictGet d k = some v := by
  induction d with
  | nil => simp [dictMem, dictGet]
  | cons p d ih =>
    by_cases h : p.1 = k
    · simp [dictMem, dictGet, h]
    · simp [dictMem, dictGet, h, ih]

theorem dictMem_dictSet {α : Type} (d : List (String × α)) (k k2 : String) (v : α) :
    dictMem (dictSet d k v) k2 = true ↔ (k2 = k ∨ dictMem d k2 = true) := by
  by_cases h : k2 = k
  · subst h
    rw [dictMem_eq_true_iff]
    exact ⟨fun _ => Or.inl rfl, fun _ => ⟨v, dictGet_dictSet_self d k2 v⟩⟩
  · rw [dictMem_eq_true_iff, dictGet_dictSet_ne d k k2 v h, ← dictMem_eq_true_iff]
    simp [h]

theorem mem_of_mem_dictSet {α : Type} (d : List (String × α)) (k : String) (v : α)
    (p : String × α) (h : p ∈ dictSet d k v) : p = (k, v) ∨ p ∈ d := by
  induction d with
  | nil => simpa [dictSet] using h
  | cons q d ih =>
    by_cases hq : q.1 = k
    · simp only [dictSet, if_pos hq] at h
      rcases List.mem_cons.mp h with h1 | h1
      · exact Or.inl h1
      · exact Or.inr (List.mem_cons_of_mem q h1)
    · simp only [dictSet, if_neg hq] at h
      rcases List.mem_cons.mp h with h1 | h1
      · exact Or.inr (h1 ▸ List.mem_cons_self q d)
      · rcases ih h1 with h2 | h2
        · exact Or.inl h2
        · exact Or.inr (List.mem_cons_of_mem q h2)

theorem dictGet_mem {α : Type} (d : List (String × α)) (k : String) (v : α)
    (h : dictGet d k = some v) : (k, v) ∈ d := by
  induction d with
  | nil => simp [dictGet] at h
  | cons p d ih =>
    by_cases hp : p.1 = k
    · simp only [dictGet, if_pos hp] at h
      obtain ⟨a, b⟩ := p
      obtain rfl : a = k := hp
      obtain rfl : b = v := Option.some.inj h
      exact List.mem_cons_self _ _
    · simp only [dictGet, if_neg hp] at h
      exact List.mem_cons_of_mem p (ih h)

theorem mem_dictKeys {α : Type} (d : List (String × α)) (k : String) :
    k ∈ dictKeys d ↔ dictMem d k = true := by
  induction d with
  | nil => simp [dictKeys, dictMem]
  | cons p d ih =>
    by_cases h : p.1 = k
    · simp [dictKeys, dictMem, h]
    · have h1 : (k ∈ dictKeys (p :: d)) ↔ (k = p.1 ∨ k ∈ dictKeys d) := by
        simp [dictKeys]
      have h2 : dictMem (p :: d) k = dictMem d k := by simp [dictMem, h]
      rw [h1, h2, ih]
      simp [Ne.symm h]

theorem dictPop_eq_some_iff {α : Type} (d : List (String × α)) (k : String)
    (d2 : List (String × α)) :
    dictPop d k = some d2 ↔
      (dictMem d k = true ∧ d2 = d.filter (fun p => !decide (p.1 = k))) := by
  unfold dictPop
  by_cases h : dictMem d k
  · simp [h, eq_comm]
  · simp [h]

theorem dictGet_filterOut_self {α : Type} (d : List (String × α)) (k : String) :
    dictGet (d.filter (fun p => !decide (p.1 = k))) k = none := by
  induction d with
  | nil => simp [dictGet]
  | cons p d ih =>
    by_cases h : p.1 = k
    · simpa [List.filter_cons, h] using ih
    · simp [List.filter_cons, h, dictGet, ih]

theorem dictGet_filterOut_ne {α : Type} (d : List (String × α)) (k k2 : String)
    (h : k2 ≠ k) :
    dictGet (d.filter (fun p => !decide (p.1 = k))) k2 = dictGet d k2 := by
  induction d with
  | nil => simp [dictGet]
  | cons p d ih =>
    by_cases hp : p.1 = k
    · have hp2 : p.1 ≠ k2 := by rw [hp]; exact Ne.symm h
      simp [List.filter_cons, hp, dictGet, hp2, Ne.symm h, ih]
    · by_cases hq : p.1 = k2
      · simp [List.filter_cons, hp, dictGet, hq, h]
      · simp [List.filter_cons, hp, dictGet, hq, ih]

theorem dictMem_filterOut {α : Type} (d : List (String × α)) (k k2 : String) :
    dictMem (d.filter (fun p => !decide (p.1 = k))) k2 = true ↔
      (k2 ≠ k ∧ dictMem d k2 = true) := by
  by_cases h : k2 = k
  · subst h
    rw [dictMem_eq_true_iff]
    simp [dictGet_filterOut_self]
  · rw [dictMem_eq_true_iff, dictGet_filterOut_ne d k k2 h, ← dictMem_eq_true_iff]
    simp [h]

theorem parse_fold_fst_mem (fp : String → Option ℚ) (elems : List QcElement)
    (acc : List (String × QcValue) × List (String × PMeta)) (n : String) :
    dictMem (elems.foldl (parseStep fp) acc).1 n = true ↔
      (dictMem acc.1 n = true ∨ ∃ e ∈ elems,
        pyStartswith e.value "n/a" = false ∧ renameParam e.name = n) := by
  induction elems generalizing acc with
  | nil => simp
  | cons e es ih =>
    rw [List.foldl_cons, ih]
    by_cases h : pyStartswith e.value "n/a" = true
    · simp only [parseStep, if_pos h]
      constructor
      · rintro (h1 | ⟨e2, he2, hp⟩)
        · exact Or.inl h1
        · exact Or.inr ⟨e2, List.mem_cons_of_mem e he2, hp⟩
      · rintro (h1 | ⟨e2, he2, hv, hr⟩)
        · exact Or.inl h1
        · rcases List.mem_cons.mp he2 with rfl | he3
          · rw [h] at hv; cases hv
          · exact Or.inr ⟨e2, he3, hv, hr⟩
    · have hf : pyStartswith e.value "n/a" = false := by simpa using h
      simp only [parseStep, if_neg h]
      rw [dictMem_dictSet]
      simp only [List.mem_cons]
      constructor
      · rintro ((rfl | h1) | ⟨e2, he2, hv, hr⟩)
        · exact Or.inr ⟨e, Or.inl rfl, hf, rfl⟩
        · exact Or.inl h1
        · exact Or.inr ⟨e2, Or.inr he2, hv, hr⟩
      · rintro (h1 | ⟨e2, (rfl | he3), hv, hr⟩)
        · exact Or.inl (Or.inr h1)
        · exact Or.inl (Or.inl hr.symm)
        · exact Or.inr ⟨e2, he3, hv, hr⟩

theorem parse_fold_snd_mem (fp : String → Option ℚ) (elems : List QcElement)
    (acc : List (String × QcValue) × List (String × PMeta)) (n : String) :
    dictMem (elems.foldl (parseStep fp) acc).2 n = true ↔
      (dictMem acc.2 n = true ∨ ∃ e ∈ elems,
        pyStartswith e.value "n/a" = false ∧ renameParam e.name = n) := by
  induction elems generalizing acc with
  | nil => simp
  | cons e es ih =>
    rw [List.foldl_cons, ih]
    by_cases h : pyStartswith e.value "n/a" = true
    · simp only [parseStep, if_pos h]
      constructor
      · rintro (h1 | ⟨e2, he2, hp⟩)
        · exact Or.inl h1
        · exact Or.inr ⟨e2, List.mem_cons_of_mem e he2, hp⟩
      · rintro (h1 | ⟨e2, he2, hv, hr⟩)
        · exact Or.inl h1
        · rcases List.mem_cons.mp he2 with rfl | he3
          · rw [h] at hv; cases hv
          · exact Or.inr ⟨e2, he3, hv, hr⟩
    · have hf : pyStartswith e.value "n/a" = false := by simpa using h
      simp only [parseStep, if_neg h]
      rw [dictMem_dictSet]
      simp only [List.mem_cons]
      constructor
      · rintro ((rfl | h1) | ⟨e2, he2, hv, hr⟩)
        · exact Or.inr ⟨e, Or.inl rfl, hf, rfl⟩
        · exact Or.inl h1
        · exact Or.inr ⟨e2, Or.inr he2, hv, hr⟩
      · rintro (h1 | ⟨e2, (rfl | he3), hv, hr⟩)
        · exact Or.inl (Or.inr h1)
        · exact Or.inl (Or.inl hr.symm)
        · exact Or.inr ⟨e2, he3, hv, hr⟩

theorem parse_qcml_fst_mem (fp : String → Option ℚ) (qcml0 : List (String × PMeta))
    (elems : List QcElement) (n : String) :
    dictMem (parse_qcml_by fp qcml0 elems).1 n = true ↔
      ∃ e ∈ elems, pyStartswith e.value "n/a" = false ∧ renameParam e.name = n := by
  unfold parse_qcml_by
  rw [parse_fold_fst_mem]
  simp [dictMem]

theorem parse_qcml_snd_mem (fp : String → Option ℚ) (qcml0 : List (String × PMeta))
    (elems : List QcElement) (n : String) :
    dictMem (parse_qcml_by fp qcml0 elems).2 n = true ↔
      (dictMem qcml0 n = true ∨ ∃ e ∈ elems,
        pyStartswith e.value "n/a" = false ∧ renameParam e.name = n) := by
  unfold parse_qcml_by
  rw [parse_fold_snd_mem]

theorem parse_fold_filter_na (fp : String → Option ℚ) (elems : List QcElement)
    (acc : List (String × QcValue) × List (String × PMeta)) :
    (elems.filter (fun e => !(pyStartswith e.value "n/a"))).foldl (parseStep fp) acc =
      elems.foldl (parseStep fp) acc := by
  induction elems generalizing acc with
  | nil => rfl
  | cons e es ih =>
    by_cases h : pyStartswith e.value "n/a" = true
    · rw [List.filter_cons_of_neg (by simp [h]), List.foldl_cons,
        show parseStep fp acc e = acc from by simp [parseStep, h], ih]
    · rw [List.filter_cons_of_pos (by simp [h]), List.foldl_cons, List.foldl_cons, ih]

theorem rtFold_spec (files : List String) (p : Bool × Bool) :
    files.foldl rtStep p =
      (p.1 || files.any (fun f => pyIn "R1" f),
       p.2 || files.any (fun f => !(pyIn "R1" f) && pyIn "R2" f)) := by
  induction files generalizing p with
  | nil => simp
  | cons f fs ih =>
    rcases p with ⟨a, b⟩
    rw [List.foldl_cons, ih]
    by_cases h1 : pyIn "R1" f = true
    · simp [rtStep, h1, List.any_cons, Bool.or_assoc]
    · by_cases h2 : pyIn "R2" f = true
      · simp [rtStep, h1, h2, List.any_cons, Bool.or_assoc]
      · simp [rtStep, h1, h2, List.any_cons]

theorem get_read_type_cases (doc : QcmlDoc) :
    get_read_type doc = "single" ∨ get_read_type doc = "paired-end" ∨
      get_read_type doc = "unknown" := by
  simp only [get_read_type]
  split
  · exact Or.inr (Or.inl rfl)
  · split
    · exact Or.inl rfl
    · exact Or.inr (Or.inr rfl)

theorem parsePass_fold_qcml_mem (fp : String → Option ℚ) (files : List ModFile)
    (st : ParseState) (n : String) :
    dictMem (files.foldl (parsePassStep fp) st).qcml n = true ↔
      (dictMem st.qcml n = true ∨ ∃ f ∈ files, paramMemD f.doc n) := by
  induction files generalizing st with
  | nil => simp
  | cons f fs ih =>
    rw [List.foldl_cons, ih]
    rw [show (parsePassStep fp st f).qcml =
      (parse_qcml_by fp st.qcml f.doc.qualityParams).2 from rfl]
    rw [parse_qcml_snd_mem]
    simp only [List.mem_cons, paramMemD]
    constructor
    · rintro ((h1 | h1) | ⟨f2, hf2, hp⟩)
      · exact Or.inl h1
      · exact Or.inr ⟨f, Or.inl rfl, h1⟩
      · exact Or.inr ⟨f2, Or.inr hf2, hp⟩
    · rintro (h1 | ⟨f2, (rfl | hf3), hp⟩)
      · exact Or.inl (Or.inl h1)
      · exact Or.inl (Or.inr hp)
      · exact Or.inr ⟨f2, hf3, hp⟩

theorem parsePass_fold_qcdata_mem (fp : String → Option ℚ) (files : List ModFile)
    (st : ParseState) (p : String × List (String × QcValue))
    (hp : p ∈ (files.foldl (parsePassStep fp) st).qcdata) :
    p ∈ st.qcdata ∨ ∃ f ∈ files, ∃ q0, p.1 = f.s_name ∧
      p.2 = (parse_qcml_by fp q0 f.doc.qualityParams).1 := by
  induction files generalizing st with
  | nil => exact Or.inl hp
  | cons f fs ih =>
    rw [List.foldl_cons] at hp
    rcases ih _ hp with h1 | ⟨f2, hf2, q0, h2⟩
    · rcases mem_of_mem_dictSet st.qcdata f.s_name
        (parse_qcml_by fp st.qcml f.doc.qualityParams).1 p h1 with h2 | h2
      · exact Or.inr ⟨f, List.mem_cons_self f fs, st.qcml,
          congrArg Prod.fst h2, congrArg Prod.snd h2⟩
      · exact Or.inl h2
    · exact Or.inr ⟨f2, List.mem_cons_of_mem f hf2, q0, h2⟩

theorem parsePass_fold_read_types_mem (fp : String → Option ℚ) (files : List ModFile)
    (st : ParseState) (p : String × String)
    (hp : p ∈ (files.foldl (parsePassStep fp) st).read_types) :
    p ∈ st.read_types ∨ ∃ f ∈ files, p.1 = f.s_name ∧ p.2 = get_read_type f.doc := by
  induction files generalizing st with
  | nil => exact Or.inl hp
  | cons f fs ih =>
    rw [List.foldl_cons] at hp
    rcases ih _ hp with h1 | ⟨f2, hf2, h2⟩
    · rcases mem_of_mem_dictSet st.read_types f.s_name (get_read_type f.doc) p h1
        with h2 | h2
      · exact Or.inr ⟨f, List.mem_cons_self f fs,
          congrArg Prod.fst h2, congrArg Prod.snd h2⟩
      · exact Or.inl h2
    · exact Or.inr ⟨f2, List.mem_cons_of_mem f hf2, h2⟩

theorem processRow_ok_shape (rt : String) (kv kv2 : List (String × QcValue))
    (hok : processRow rt kv = Except.ok kv2) :
    ∃ b : ℚ, dictGet kv "bases sequenced (MB)" = some (QcValue.num b) ∧
      ∃ kvm : List (String × QcValue),
        dictPop kvm "bases sequenced (MB)" = some kv2 ∧
        ((rt = "single" ∧ ∃ rc,
            dictGet (dictSet kv "bases sequenced" (QcValue.num (b * 1000000)))
              "read count" = some rc ∧
            kvm = dictSet (dictSet kv "bases sequenced" (QcValue.num (b * 1000000)))
              "cluster count" rc) ∨
         (rt = "paired-end" ∧ ∃ r : ℚ,
            dictGet (dictSet kv "bases sequenced" (QcValue.num (b * 1000000)))
              "read count" = some (QcValue.num r) ∧
            kvm = dictSet (dictSet kv "bases sequenced" (QcValue.num (b * 1000000)))
              "cluster count" (QcValue.num (r / 2))) ∨
         (¬rt = "single" ∧ ¬rt = "paired-end" ∧
            kvm = dictSet kv "bases sequenced" (QcValue.num (b * 1000000)))) := by
  unfold processRow at hok
  split at hok
  · exact Except.noConfusion hok
  · exact Except.noConfusion hok
  · rename_i q hget
    refine ⟨q, hget, ?_⟩
    split at hok
    · rename_i h1
      dsimp only at hok
      split at hok
      · exact Except.noConfusion hok
      · rename_i kvm hnext
        split at hok
        · rename_i kv3 hpop
          obtain rfl : kv3 = kv2 := Except.ok.inj hok
          refine ⟨kvm, hpop, ?_⟩
          split at hnext
          · rename_i rc hrc
            exact Or.inl ⟨h1, rc, hrc, (Except.ok.inj hnext).symm⟩
          · exact Except.noConfusion hnext
        · exact Except.noConfusion hok
    · split at hok
      · rename_i h1 h2
        dsimp only at hok
        split at hok
        · exact Except.noConfusion hok
        · rename_i kvm hnext
          split at hok
          · rename_i kv3 hpop
            obtain rfl : kv3 = kv2 := Except.ok.inj hok
            refine ⟨kvm, hpop, ?_⟩
            split at hnext
            · rename_i r hrc
              exact Or.inr (Or.inl ⟨h2, r, hrc, (Except.ok.inj hnext).symm⟩)
            · exact Except.noConfusion hnext
            · exact Except.noConfusion hnext
          · exact Except.noConfusion hok
      · rename_i h1 h2
        dsimp only at hok
        split at hok
        · rename_i kv3 hpop
          obtain rfl : kv3 = kv2 := Except.ok.inj hok
          exact ⟨dictSet kv "bases sequenced" (QcValue.num (q * 1000000)),
            hpop, Or.inr (Or.inr ⟨h1, h2, rfl⟩)⟩
        · exact Except.noConfusion hok

theorem processRow_preserves_mem (rt : String) (kv kv2 : List (String × QcValue))
    (hok : processRow rt kv = Except.ok kv2) (n : String)
    (hne : n ≠ "bases sequenced (MB)") (hmem : dictMem kv n = true) :
    dictMem kv2 n = true := by
  obtain ⟨b, hget, kvm, hpop, hcase⟩ := processRow_ok_shape rt kv kv2 hok
  obtain ⟨hm, rfl⟩ := (dictPop_eq_some_iff kvm "bases sequenced (MB)" _).mp hpop
  rw [dictMem_filterOut]
  refine ⟨hne, ?_⟩
  rcases hcase with ⟨_, rc, _, rfl⟩ | ⟨_, r, _, rfl⟩ | ⟨_, _, rfl⟩ <;>
    simp [dictMem_dictSet, hmem]

theorem processRow_bs_mem (rt : String) (kv kv2 : List (String × QcValue))
    (hok : processRow rt kv = Except.ok kv2) :
    dictMem kv2 "bases sequenced" = true := by
  obtain ⟨b, hget, kvm, hpop, hcase⟩ := processRow_ok_shape rt kv kv2 hok
  obtain ⟨hm, rfl⟩ := (dictPop_eq_some_iff kvm "bases sequenced (MB)" _).mp hpop
  rw [dictMem_filterOut]
  refine ⟨by decide, ?_⟩
  rcases hcase with ⟨_, rc, _, rfl⟩ | ⟨_, r, _, rfl⟩ | ⟨_, _, rfl⟩ <;>
    simp [dictMem_dictSet]

theorem processRow_cc_mem (rt : String) (kv kv2 : List (String × QcValue))
    (hok : processRow rt kv = Except.ok kv2)
    (hrt : rt = "single" ∨ rt = "paired-end") :
    dictMem kv2 "cluster count" = true := by
  obtain ⟨b, hget, kvm, hpop, hcase⟩ := processRow_ok_shape rt kv kv2 hok
  obtain ⟨hm, rfl⟩ := (dictPop_eq_some_iff kvm "bases sequenced (MB)" _).mp hpop
  rw [dictMem_filterOut]
  refine ⟨by decide, ?_⟩
  rcases hcase with ⟨_, rc, _, rfl⟩ | ⟨_, r, _, rfl⟩ | ⟨hs, hp, rfl⟩
  · simp [dictMem_dictSet]
  · simp [dictMem_dictSet]
  · rcases hrt with h | h
    · exact absurd h hs
    · exact absurd h hp

theorem processRow_mb_gone (rt : String) (kv kv2 : List (String × QcValue))
    (hok : processRow rt kv = Except.ok kv2) :
    dictGet kv2 "bases sequenced (MB)" = none := by
  obtain ⟨b, hget, kvm, hpop, hcase⟩ := processRow_ok_shape rt kv kv2 hok
  obtain ⟨hm, rfl⟩ := (dictPop_eq_some_iff kvm "bases sequenced (MB)" _).mp hpop
  exact dictGet_filterOut_self kvm "bases sequenced (MB)"

theorem processRow_bs_val (rt : String) (kv kv2 : List (String × QcValue)) (b : ℚ)
    (hmb : dictGet kv "bases sequenced (MB)" = some (QcValue.num b))
    (hok : processRow rt kv = Except.ok kv2) :
    dictGet kv2 "bases sequenced" = some (QcValue.num (b * 1000000)) := by
  obtain ⟨b2, hget, kvm, hpop, hcase⟩ := processRow_ok_shape rt kv kv2 hok
  obtain rfl : b2 = b := by
    rw [hmb] at hget
    exact (QcValue.num.inj (Option.some.inj hget)).symm
  obtain ⟨hm, rfl⟩ := (dictPop_eq_some_iff kvm "bases sequenced (MB)" _).mp hpop
  rw [dictGet_filterOut_ne kvm "bases sequenced (MB)" "bases sequenced" (by decide)]
  rcases hcase with ⟨_, rc, _, rfl⟩ | ⟨_, r, _, rfl⟩ | ⟨_, _, rfl⟩
  · rw [dictGet_dictSet_ne _ "cluster count" "bases sequenced" _ (by decide)]
    exact dictGet_dictSet_self kv "bases sequenced" _
  · rw [dictGet_dictSet_ne _ "cluster count" "bases sequenced" _ (by decide)]
    exact dictGet_dictSet_self kv "bases sequenced" _
  · exact dictGet_dictSet_self kv "bases sequenced" _

theorem processRow_ne_noData (rt : String) (kv : List (String × QcValue)) :
    processRow rt kv ≠ Except.error ModErr.noData := by
  intro hok
  unfold processRow at hok
  split at hok
  · exact ModErr.noConfusion (Except.error.inj hok)
  · exact ModErr.noConfusion (Except.error.inj hok)
  · rename_i q hget
    split at hok
    · rename_i h1
      dsimp only at hok
      split at hok
      · rename_i e hnext
        obtain rfl : e = ModErr.noData := Except.error.inj hok
        split at hnext
        · exact Except.noConfusion hnext
        · exact ModErr.noConfusion (Except.error.inj hnext)
      · rename_i kvm hnext
        split at hok
        · exact Except.noConfusion hok
        · exact ModErr.noConfusion (Except.error.inj hok)
    · split at hok
      · rename_i h1 h2
        dsimp only at hok
        split at hok
        · rename_i e hnext
          obtain rfl : e = ModErr.noData := Except.error.inj hok
          split at hnext
          · exact Except.noConfusion hnext
          · exact ModErr.noConfusion (Except.error.inj hnext)
          · exact ModErr.noConfusion (Except.error.inj hnext)
        · rename_i kvm hnext
          split at hok
          · exact Except.noConfusion hok
          · exact ModErr.noConfusion (Except.error.inj hok)
      · rename_i h1 h2
        dsimp only at hok
        split at hok
        · exact Except.noConfusion hok
        · exact ModErr.noConfusion (Except.error.inj hok)

theorem exMapList_ok_mem {α β : Type} (f : α → Except ModErr β) (l : List α)
    (l2 : List β) (h : exMapList f l = Except.ok l2) :
    ∀ y ∈ l2, ∃ x ∈ l, f x = Except.ok y := by
  induction l generalizing l2 with
  | nil =>
    obtain rfl : ([] : List β) = l2 := Except.ok.inj h
    intro y hy
    cases hy
  | cons x xs ih =>
    unfold exMapList at h
    split at h
    · exact Except.noConfusion h
    · rename_i y hy
      split at h
      · exact Except.noConfusion h
      · rename_i ys hys
        obtain rfl : y :: ys = l2 := Except.ok.inj h
        intro z hz
        rcases List.mem_cons.mp hz with rfl | hz2
        · exact ⟨x, List.mem_cons_self x xs, hy⟩
        · obtain ⟨x2, hx2, hfx2⟩ := ih ys hys z hz2
          exact ⟨x2, List.mem_cons_of_mem x hx2, hfx2⟩

theorem exMapList_error_mem {α β : Type} (f : α → Except ModErr β) (l : List α)
    (c : ModErr) (h : exMapList f l = Except.error c) :
    ∃ x ∈ l, f x = Except.error c := by
  induction l with
  | nil => exact Except.noConfusion h
  | cons x xs ih =>
    unfold exMapList at h
    split at h
    · rename_i hx
      obtain rfl : _ = c := (Except.error.inj h)
      exact ⟨x, List.mem_cons_self x xs, hx⟩
    · rename_i y hy
      split at h
      · rename_i hxs
        obtain rfl : _ = c := (Except.error.inj h)
        obtain ⟨x2, hx2, hfx2⟩ := ih hxs
        exact ⟨x2, List.mem_cons_of_mem x hx2, hfx2⟩
      · exact Except.noConfusion h

theorem checkHeaderKeys_error_shape (q : List (String × PMeta)) (ks : List String)
    (c : ModErr) (h : checkHeaderKeys q ks = Except.error c) :
    ∃ k, c = ModErr.keyError k := by
  induction ks with
  | nil => exact Except.noConfusion h
  | cons k ks ih =>
    unfold checkHeaderKeys at h
    split at h
    · exact ih h
    · exact ⟨k, (Except.error.inj h).symm⟩

theorem rowStep_ne_noData (rts : List (String × String))
    (p : String × List (String × QcValue)) :
    rowStep rts p ≠ Except.error ModErr.noData := by
  intro h
  unfold rowStep at h
  split at h
  · exact ModErr.noConfusion (Except.error.inj h)
  · rename_i rt hrt
    split at h
    · rename_i e he
      obtain rfl : e = ModErr.noData := Except.error.inj h
      exact processRow_ne_noData rt p.2 he
    · exact Except.noConfusion h

theorem rowStep_ok_shape (rts : List (String × String))
    (p y : String × List (String × QcValue))
    (h : rowStep rts p = Except.ok y) :
    ∃ rt, dictGet rts p.1 = some rt ∧ processRow rt p.2 = Except.ok y.2 ∧
      y.1 = p.1 := by
  unfold rowStep at h
  split at h
  · exact Except.noConfusion h
  · rename_i rt hrt
    split at h
    · exact Except.noConfusion h
    · rename_i kv hkv
      obtain rfl : (p.1, kv) = y := Except.ok.inj h
      exact ⟨rt, hrt, hkv, rfl⟩

theorem moduleInit_ok_shape (fp : String → Option ℚ) (files : List ModFile)
    (keep : String → Bool) (out : ModOut)
    (hok : moduleInit fp files keep = Except.ok out) :
    ∃ qcml1, dictPop (parsePass fp files).qcml "bases sequenced (MB)" = some qcml1 ∧
      out.headerKeys = dictKeys (dictSet
        (dictSet qcml1 "bases sequenced" ⟨"Bases sequenced in total.", ""⟩)
        "cluster count" ⟨"Total number of clusters.", ""⟩) ∧
      exMapList (rowStep (parsePass fp files).read_types)
        (filteredQcdata fp files keep) = Except.ok out.qcdata := by
  unfold moduleInit at hok
  dsimp only at hok
  split at hok
  · exact Except.noConfusion hok
  · split at hok
    · exact Except.noConfusion hok
    · rename_i qcml1 hpop
      split at hok
      · exact Except.noConfusion hok
      · rename_i rows hrows
        split at hok
        · exact Except.noConfusion hok
        · rename_i u hchk
          obtain rfl : (⟨rows, _⟩ : ModOut) = out := Except.ok.inj hok
          exact ⟨qcml1, hpop, rfl, hrows⟩

theorem moduleInit_empty_noData (fp : String → Option ℚ) (files : List ModFile)
    (keep : String → Bool)
    (he : (filteredQcdata fp files keep).isEmpty = true) :
    moduleInit fp files keep = Except.error ModErr.noData := by
  unfold moduleInit
  dsimp only
  rw [if_pos he]

theorem moduleInit_ne_noData (fp : String → Option ℚ) (files : List ModFile)
    (keep : String → Bool)
    (hne : (filteredQcdata fp files keep).isEmpty = false) :
    moduleInit fp files keep ≠ Except.error ModErr.noData := by
  intro h
  unfold moduleInit at h
  dsimp only at h
  split at h
  · rename_i hemp
    rw [hne] at hemp
    exact Bool.noConfusion hemp
  · split at h
    · exact ModErr.noConfusion (Except.error.inj h)
    · rename_i qcml1 hpop
      split at h
      · rename_i e he2
        obtain rfl : e = ModErr.noData := Except.error.inj h
        obtain ⟨x, hx, hfx⟩ := exMapList_error_mem _ _ _ he2
        exact rowStep_ne_noData _ x hfx
      · rename_i rows hrows
        split at h
        · rename_i e he2
          obtain rfl : e = ModErr.noData := Except.error.inj h
          obtain ⟨k, hk⟩ := checkHeaderKeys_error_shape _ _ _ he2
          exact ModErr.noConfusion hk
        · exact Except.noConfusion h

theorem processRow_single_run (kv : List (String × QcValue)) (b : ℚ) (rc : QcValue)
    (hmb : dictGet kv "bases sequenced (MB)" = some (QcValue.num b))
    (hrc : dictGet kv "read count" = some rc) :
    processRow "single" kv = Except.ok
      ((dictSet (dictSet kv "bases sequenced" (QcValue.num (b * 1000000)))
          "cluster count" rc).filter
        (fun p => !decide (p.1 = "bases sequenced (MB)"))) := by
  have hrc1 : dictGet (dictSet kv "bases sequenced" (QcValue.num (b * 1000000)))
      "read count" = some rc := by
    rw [dictGet_dictSet_ne kv "bases sequenced" "read count" _ (by decide)]
    exact hrc
  have hmem : dictMem (dictSet (dictSet kv "bases sequenced"
      (QcValue.num (b * 1000000))) "cluster count" rc)
      "bases sequenced (MB)" = true := by
    rw [dictMem_dictSet]
    refine Or.inr ?_
    rw [dictMem_dictSet]
    exact Or.inr ((dictMem_eq_true_iff kv _).mpr ⟨_, hmb⟩)
  unfold processRow
  rw [hmb]
  dsimp only
  rw [if_pos rfl, hrc1]
  dsimp only
  unfold dictPop
  rw [hmem]
  rfl

theorem processRow_paired_run (kv : List (String × QcValue)) (b r : ℚ)
    (hmb : dictGet kv "bases sequenced (MB)" = some (QcValue.num b))
    (hrc : dictGet kv "read count" = some (QcValue.num r)) :
    processRow "paired-end" kv = Except.ok
      ((dictSet (dictSet kv "bases sequenced" (QcValue.num (b * 1000000)))
          "cluster count" (QcValue.num (r / 2))).filter
        (fun p => !decide (p.1 = "bases sequenced (MB)"))) := by
  have hrc1 : dictGet (dictSet kv "bases sequenced" (QcValue.num (b * 1000000)))
      "read count" = some (QcValue.num r) := by
    rw [dictGet_dictSet_ne kv "bases sequenced" "read count" _ (by decide)]
    exact hrc
  have hmem : dictMem (dictSet (dictSet kv "bases sequenced"
      (QcValue.num (b * 1000000))) "cluster count" (QcValue.num (r / 2)))
      "bases sequenced (MB)" = true := by
    rw [dictMem_dictSet]
    refine Or.inr ?_
    rw [dictMem_dictSet]
    exact Or.inr ((dictMem_eq_true_iff kv _).mpr ⟨_, hmb⟩)
  unfold processRow
  rw [hmb]
  dsimp only
  rw [if_neg (by decide), if_pos rfl, hrc1]
  dsimp only
  unfold dictPop
  rw [hmem]
  rfl

theorem processRow_unknown_run (kv : List (String × QcValue)) (b : ℚ)
    (hmb : dictGet kv "bases sequenced (MB)" = some (QcValue.num b)) :
    processRow "unknown" kv = Except.ok
      ((dictSet kv "bases sequenced" (QcValue.num (b * 1000000))).filter
        (fun p => !decide (p.1 = "bases sequenced (MB)"))) := by
  have hmem : dictMem (dictSet kv "bases sequenced" (QcValue.num (b * 1000000)))
      "bases sequenced (MB)" = true := by
    rw [dictMem_dictSet]
    exact Or.inr ((dictMem_eq_true_iff kv _).mpr ⟨_, hmb⟩)
  unfold processRow
  rw [hmb]
  dsimp only
  rw [if_neg (by decide), if_neg (by decide)]
  dsimp only
  unfold dictPop
  rw [hmem]
  rfl

/-- Claim C1, counterexample: one source-file value containing both "R1" and
"R2".  Both substrings are present across the collected source-file values, so
the claim requires "paired-end"; `get_read_type` returns "single", because the
`elif` never tests a file that contains "R1" for "R2". -/
theorem c1_read_type_counterexample :
    pyIn "R1" "a_R1_R2.fastq" = true ∧ pyIn "R2" "a_R1_R2.fastq" = true ∧
    sourceFilesOf ⟨[], [⟨"source file", "a_R1_R2.fastq", none, none⟩]⟩ =
      ["a_R1_R2.fastq"] ∧
    get_read_type ⟨[], [⟨"source file", "a_R1_R2.fastq", none, none⟩]⟩ = "single" ∧
    get_read_type ⟨[], [⟨"source file", "a_R1_R2.fastq", none, none⟩]⟩ ≠
      "paired-end" := by
  refine ⟨by decide, by decide, by decide, by decide, by decide⟩

/-- Claim C1, amended: the result of `get_read_type` is determined by two
flags over the collected source-file values: r1 holds when some value contains
"R1"; r2 holds when some value contains "R2" but not "R1" (a value containing
both counts only towards r1).  Both flags → "paired-end"; exactly one →
"single"; neither → "unknown". -/
theorem c1_read_type_classification (doc : QcmlDoc) :
    get_read_type doc =
      (if ((sourceFilesOf doc).any (fun f => pyIn "R1" f))
          && ((sourceFilesOf doc).any (fun f => !(pyIn "R1" f) && pyIn "R2" f))
        then "paired-end"
       else if ((sourceFilesOf doc).any (fun f => pyIn "R1" f))
          || ((sourceFilesOf doc).any (fun f => !(pyIn "R1" f) && pyIn "R2" f))
        then "single"
       else "unknown") := by
  simp only [get_read_type]
  rw [rtFold_spec]
  simp

/-- Claim C5: after the derived-metric step, 'cluster count' equals
'read count' for read type "single", 'read count' divided by 2 for
"paired-end", and is absent from the row for "unknown" (provided it was not a
parsed parameter itself). -/
theorem c5_cluster_count (kv : List (String × QcValue)) (b r : ℚ) (rc : QcValue)
    (hmb : dictGet kv "bases sequenced (MB)" = some (QcValue.num b))
    (hrc : dictGet kv "read count" = some rc)
    (hrn : rc = QcValue.num r)
    (hcc : dictMem kv "cluster count" = false) :
    (∃ kv2, processRow "single" kv = Except.ok kv2 ∧
       dictGet kv2 "cluster count" = some rc) ∧
    (∃ kv2, processRow "paired-end" kv = Except.ok kv2 ∧
       dictGet kv2 "cluster count" = some (QcValue.num (r / 2))) ∧
    (∃ kv2, processRow "unknown" kv = Except.ok kv2 ∧
       dictGet kv2 "cluster count" = none) := by
  refine ⟨⟨_, processRow_single_run kv b rc hmb hrc, ?_⟩,
          ⟨_, processRow_paired_run kv b r hmb (hrn ▸ hrc), ?_⟩,
          ⟨_, processRow_unknown_run kv b hmb, ?_⟩⟩
  · rw [dictGet_filterOut_ne _ "bases sequenced (MB)" "cluster count" (by decide)]
    exact dictGet_dictSet_self _ "cluster count" rc
  · rw [dictGet_filterOut_ne _ "bases sequenced (MB)" "cluster count" (by decide)]
    exact dictGet_dictSet_self _ "cluster count" _
  · rw [dictGet_filterOut_ne _ "bases sequenced (MB)" "cluster count" (by decide)]
    rw [dictGet_dictSet_ne _ "bases sequenced" "cluster count" _ (by decide)]
    exact (dictMem_eq_false_iff kv "cluster count").mp hcc

/-- Witness for C5 at a concrete row with read count 100 and
bases sequenced (MB) 100, exercising all three read types. -/
theorem c5_cluster_count_witness :
    (∃ kv2, processRow "single"
        [("bases sequenced (MB)", QcValue.num 100), ("read count", QcValue.num 100)]
        = Except.ok kv2 ∧
      dictGet kv2 "cluster count" = some (QcValue.num 100)) ∧
    (∃ kv2, processRow "paired-end"
        [("bases sequenced (MB)", QcValue.num 100), ("read count", QcValue.num 100)]
        = Except.ok kv2 ∧
      dictGet kv2 "cluster count" = some (QcValue.num (100 / 2))) ∧
    (∃ kv2, processRow "unknown"
        [("bases sequenced (MB)", QcValue.num 100), ("read count", QcValue.num 100)]
        = Except.ok kv2 ∧
      dictGet kv2 "cluster count" = none) :=
  c5_cluster_count
    [("bases sequenced (MB)", QcValue.num 100), ("read count", QcValue.num 100)]
    100 100 (QcValue.num 100) (by decide) (by decide) rfl (by decide)

/-- Claim C6: when the row holds a numeric 'bases sequenced (MB)' value v, a
successful derived-metric step stores v * 1e6 under 'bases sequenced' and
removes 'bases sequenced (MB)'. -/
theorem c6_bases_sequenced (kv kv2 : List (String × QcValue)) (rt : String) (v : ℚ)
    (hmb : dictGet kv "bases sequenced (MB)" = some (QcValue.num v))
    (hok : processRow rt kv = Except.ok kv2) :
    dictGet kv2 "bases sequenced" = some (QcValue.num (v * 1000000)) ∧
    dictGet kv2 "bases sequenced (MB)" = none :=
  ⟨processRow_bs_val rt kv kv2 v hmb hok, processRow_mb_gone rt kv kv2 hok⟩

/-- Witness for C6: input 2.5 MB yields 2,500,000 bases and the MB key is
gone. -/
theorem c6_bases_sequenced_witness :
    ∃ kv2, processRow "unknown" [("bases sequenced (MB)", QcValue.num (5 / 2))]
        = Except.ok kv2 ∧
      dictGet kv2 "bases sequenced" = some (QcValue.num 2500000) ∧
      dictGet kv2 "bases sequenced (MB)" = none := by
  have hmb : dictGet [("bases sequenced (MB)", QcValue.num (5 / 2))]
      "bases sequenced (MB)" = some (QcValue.num (5 / 2)) := by
    simp [dictGet]
  have hrun := processRow_unknown_run [("bases sequenced (MB)", QcValue.num (5 / 2))]
    (5 / 2) hmb
  have h := c6_bases_sequenced _ _ "unknown" (5 / 2) hmb hrun
  refine ⟨_, hrun, ?_, h.2⟩
  rw [h.1]
  norm_num

/-- Claim C7: an element whose value attribute starts with "n/a" contributes
nothing to `parse_qcml_by`: dropping all such elements leaves the result
unchanged, and a name produced only by such elements is absent from the
returned value mapping and (if not already present) from the shared metadata
table. -/
theorem c7_na_skip (fp : String → Option ℚ) (qcml0 : List (String × PMeta))
    (elems : List QcElement) :
    parse_qcml_by fp qcml0
        (elems.filter (fun e => !(pyStartswith e.value "n/a"))) =
      parse_qcml_by fp qcml0 elems ∧
    ∀ n : String,
      (∀ e ∈ elems, renameParam e.name = n → pyStartswith e.value "n/a" = true) →
      dictGet (parse_qcml_by fp qcml0 elems).1 n = none ∧
      (dictMem qcml0 n = false →
        dictMem (parse_qcml_by fp qcml0 elems).2 n = false) := by
  constructor
  · unfold parse_qcml_by
    exact parse_fold_filter_na fp elems ([], qcml0)
  · intro n hall
    constructor
    · rw [← dictMem_eq_false_iff]
      cases hb : dictMem (parse_qcml_by fp qcml0 elems).1 n with
      | false => rfl
      | true =>
        obtain ⟨e, he, hv, hr⟩ := (parse_qcml_fst_mem fp qcml0 elems n).mp hb
        rw [hall e he hr] at hv
        exact Bool.noConfusion hv
    · intro h0
      cases hb : dictMem (parse_qcml_by fp qcml0 elems).2 n with
      | false => rfl
      | true =>
        rcases (parse_qcml_snd_mem fp qcml0 elems n).mp hb with h1 | ⟨e, he, hv, hr⟩
        · rw [h0] at h1
          exact Bool.noConfusion h1
        · rw [hall e he hr] at hv
          exact Bool.noConfusion hv

/-- Witness for C7 at a two-element document whose first element has value
"n/a (too few reads)". -/
theorem c7_na_skip_witness :
    (parse_qcml_by fpTest []
        (([⟨"p", "n/a (too few reads)", none, none⟩,
           ⟨"q", "50", none, none⟩] : List QcElement).filter
          (fun e => !(pyStartswith e.value "n/a"))) =
      parse_qcml_by fpTest []
        [⟨"p", "n/a (too few reads)", none, none⟩, ⟨"q", "50", none, none⟩]) ∧
    dictGet (parse_qcml_by fpTest []
        [⟨"p", "n/a (too few reads)", none, none⟩, ⟨"q", "50", none, none⟩]).1 "p"
      = none ∧
    dictMem (parse_qcml_by fpTest []
        [⟨"p", "n/a (too few reads)", none, none⟩, ⟨"q", "50", none, none⟩]).2 "p"
      = false := by
  have h := c7_na_skip fpTest []
    [⟨"p", "n/a (too few reads)", none, none⟩, ⟨"q", "50", none, none⟩]
  have h2 := h.2 "p" (by decide)
  exact ⟨h.1, h2.1, h2.2 (by decide)⟩

theorem take_append_len (l m : List Char) (n : Nat) (h : m.length = n) :
    (l ++ m).take ((l ++ m).length - n) = l := by
  rw [List.length_append, h, Nat.add_sub_cancel]
  exact List.take_left l m

theorem pyEndsWith_append (l : List Char) (suf : String) :
    pyEndsWith (String.mk (l ++ suf.data)) suf = true :=
  decide_eq_true (List.suffix_append l suf.data)

theorem pyEndsWith_false_of_getLast (s suf : String) (c d : Char)
    (hc : s.data.getLast? = some c) (hd : suf.data.getLast? = some d)
    (hne : d ≠ c) : pyEndsWith s suf = false := by
  apply decide_eq_false
  intro hsuf
  obtain ⟨u, hu⟩ := hsuf
  have hd2 : suf.data ≠ [] := by
    intro h0
    rw [h0] at hd
    exact Option.noConfusion hd
  rw [← hu, List.getLast?_append_of_ne_nil u hd2, hd] at hc
  exact hne (Option.some.inj hc)

/-- Claim C8, counterexample: the name "x percentage\n" does not end in the
exact suffix " percentage" (it ends in a newline), yet it is not recorded
unchanged: Python's `$` matches just before a trailing newline, so the
substitution fires and the element is recorded as "x %\n". -/
theorem c8_rename_counterexample :
    pyEndsWith "x percentage\n" " percentage" = false ∧
    renameParam "x percentage\n" = "x %\n" ∧
    ("x %\n" : String) ≠ "x percentage\n" ∧
    dictMem (parse_qcml_by fpTest []
        [⟨"x percentage\n", "50", none, none⟩]).1 "x %\n" = true ∧
    dictMem (parse_qcml_by fpTest []
        [⟨"x percentage\n", "50", none, none⟩]).1 "x percentage\n" = false := by
  refine ⟨by decide, by decide, by decide, by decide, by decide⟩

/-- Claim C8 (amended): a name ending in " percentage" is recorded with that
suffix replaced by " %"; a name ending in " percentage" followed by a single
final newline has the " percentage" occurrence likewise replaced (the `re`
anchor `$` also matches just before a trailing newline); every other name is
recorded unchanged. -/
theorem c8_percentage_rename (l : List Char) (s : String) :
    renameParam (String.mk (l ++ (" percentage").data)) =
      String.mk (l ++ (" %").data) ∧
    renameParam (String.mk (l ++ (" percentage\n").data)) =
      String.mk (l ++ (" %\n").data) ∧
    (pyEndsWith s " percentage" = false → pyEndsWith s " percentage\n" = false →
      renameParam s = s) := by
  refine ⟨?_, ?_, ?_⟩
  · unfold renameParam
    rw [pyEndsWith_append l " percentage", if_pos rfl]
    show String.mk ((l ++ (" percentage").data).take
        ((l ++ (" percentage").data).length - 11) ++ (" %").data) =
      String.mk (l ++ (" %").data)
    rw [take_append_len l (" percentage").data 11 (by decide)]
  · unfold renameParam
    have h1 : pyEndsWith (String.mk (l ++ (" percentage\n").data))
        " percentage" = false := by
      apply pyEndsWith_false_of_getLast _ _ '\n' 'e'
      · show (l ++ (" percentage\n").data).getLast? = some '\n'
        rw [List.getLast?_append_of_ne_nil l (by decide)]
        decide
      · decide
      · decide
    rw [h1, if_neg Bool.false_ne_true,
      pyEndsWith_append l " percentage\n", if_pos rfl]
    show String.mk ((l ++ (" percentage\n").data).take
        ((l ++ (" percentage\n").data).length - 12) ++ (" %\n").data) =
      String.mk (l ++ (" %\n").data)
    rw [take_append_len l (" percentage\n").data 12 (by decide)]
  · intro h1 h2
    unfold renameParam
    rw [h1, if_neg Bool.false_ne_true, h2, if_neg Bool.false_ne_true]

/-- Witness for C8: "gc content percentage" becomes "gc content %" and
"X percent" is unchanged. -/
theorem c8_percentage_rename_witness :
    renameParam (String.mk (("gc content").data ++ (" percentage").data)) =
      String.mk (("gc content").data ++ (" %").data) ∧
    renameParam "X percent" = "X percent" := by
  have h := c8_percentage_rename ("gc content").data "X percent"
  exact ⟨h.1, h.2.2 (by decide) (by decide)⟩

/-- Claim C10: the "n/a" skip is case-sensitive.  Any element whose value does
not start with the lowercase "n/a" (for example one starting with "N/A") is
processed: `parse_qcml_by` records it in the value mapping and the metadata
table, and `get_read_type` collects its value when it names a source file. -/
theorem c10_case_sensitive (fp : String → Option ℚ) (qcml0 : List (String × PMeta))
    (elems : List QcElement) (e : QcElement) (he : e ∈ elems)
    (hv : pyStartswith e.value "n/a" = false) :
    dictMem (parse_qcml_by fp qcml0 elems).1 (renameParam e.name) = true ∧
    dictMem (parse_qcml_by fp qcml0 elems).2 (renameParam e.name) = true ∧
    ∀ doc : QcmlDoc, e ∈ doc.metaDataParams → e.name = "source file" →
      e.value ∈ sourceFilesOf doc := by
  refine ⟨?_, ?_, ?_⟩
  · exact (parse_qcml_fst_mem fp qcml0 elems _).mpr ⟨e, he, hv, rfl⟩
  · exact (parse_qcml_snd_mem fp qcml0 elems _).mpr (Or.inr ⟨e, he, hv, rfl⟩)
  · intro doc hd hn
    unfold sourceFilesOf
    refine List.mem_map.mpr ⟨e, ?_, rfl⟩
    refine List.mem_filter.mpr ⟨hd, ?_⟩
    rw [hv, hn]
    decide

/-- Witness for C10: a metaDataParameter with value "N/A pending" is not
skipped. -/
theorem c10_case_sensitive_witness :
    pyStartswith "N/A pending" "n/a" = false ∧
    dictMem (parse_qcml_by fpTest []
        [⟨"source file", "N/A pending", none, none⟩]).1 "source file" = true ∧
    dictMem (parse_qcml_by fpTest []
        [⟨"source file", "N/A pending", none, none⟩]).2 "source file" = true ∧
    "N/A pending" ∈
      sourceFilesOf ⟨[], [⟨"source file", "N/A pending", none, none⟩]⟩ := by
  have h := c10_case_sensitive fpTest []
    [⟨"source file", "N/A pending", none, none⟩]
    ⟨"source file", "N/A pending", none, none⟩ (by decide) (by decide)
  exact ⟨by decide, h.1, h.2.1,
    h.2.2 ⟨[], [⟨"source file", "N/A pending", none, none⟩]⟩ (by decide) rfl⟩

/-- Claim C9: when the per-sample table is empty after parsing and sample
exclusion, the module raises the distinguished "no data" signal (the
`UserWarning`), before any derived-metric computation, header construction or
table construction; when at least one sample remains the signal is never
raised (any later failure is a `KeyError` or `TypeError`). -/
theorem c9_no_data_signal (fp : String → Option ℚ) (files : List ModFile)
    (keep : String → Bool) :
    ((filteredQcdata fp files keep).isEmpty = true →
      moduleInit fp files keep = Except.error ModErr.noData) ∧
    ((filteredQcdata fp files keep).isEmpty = false →
      moduleInit fp files keep ≠ Except.error ModErr.noData) :=
  ⟨moduleInit_empty_noData fp files keep, moduleInit_ne_noData fp files keep⟩

/-- Witness for C9: one parsed file whose document lacks
'bases sequenced (MB)'.  With every sample ignored the module still signals
"no data" (the later `KeyError` is never reached); with the sample kept, the
result is not the no-data signal. -/
theorem c9_no_data_signal_witness :
    moduleInit fpTest c9Files keepNone = Except.error ModErr.noData ∧
    moduleInit fpTest c9Files keepAll ≠ Except.error ModErr.noData :=
  ⟨(c9_no_data_signal fpTest c9Files keepNone).1 (by decide),
   (c9_no_data_signal fpTest c9Files keepAll).2 (by decide)⟩

theorem map_pair_keys {α : Type} (enum : List α) (g : α → α) :
    List.map Prod.fst (enum.map (fun z => (z, g z))) = enum := by
  rw [List.map_map]
  exact List.map_id enum

theorem map_pair_mem {α : Type} (enum : List α) (g : α → α) (x : α)
    (hx : x ∈ enum) : (x, g x) ∈ enum.map (fun z => (z, g z)) :=
  List.mem_map.mpr ⟨x, hx, rfl⟩

theorem map_pair_val {α : Type} [DecidableEq α] (enum : List α) (g : α → α)
    (x y : α) (h : (x, y) ∈ enum.map (fun z => (z, g z))) : y = g x := by
  obtain ⟨z, hz, hzy⟩ := List.mem_map.mp h
  rw [Prod.mk.injEq] at hzy
  obtain ⟨rfl, h2⟩ := hzy
  exact h2.symm

/-- Claim C2: for any enumeration `enum` of the set `all_x` (each member of
the x-union exactly once — the CPython set-iteration guarantee), every
per-sample mapping in both series of `plot_idhist` has x-key set equal to the
union of x-values over all input samples, and every x in the union that is
missing from a sample's data is mapped to 0 in that sample's entry of both
series. -/
theorem c2_idhist_union_zero_fill (samples : List HistSample) (enum : List ℚ)
    (hiff : ∀ x : ℚ, x ∈ enum ↔ x ∈ xUnion samples) :
    ∀ series ∈ plot_idhist enum samples, ∀ s ∈ samples,
      ∃ row : List (ℚ × ℚ), (s.name ++ "." ++ "Count", row) ∈ series ∧
        (∀ x : ℚ, x ∈ xKeys row ↔ x ∈ xUnion samples) ∧
        (∀ x : ℚ, x ∈ xUnion samples → histGet s.data x = none →
          (x, 0) ∈ row ∧ ∀ y : ℚ, (x, y) ∈ row → y = 0) := by
  have key : ∀ col : ℚ × ℚ → ℚ, ∀ s ∈ samples,
      ∃ row : List (ℚ × ℚ),
        (s.name ++ "." ++ "Count", row) ∈ samples.map (idhistRow col enum) ∧
        (∀ x : ℚ, x ∈ xKeys row ↔ x ∈ xUnion samples) ∧
        (∀ x : ℚ, x ∈ xUnion samples → histGet s.data x = none →
          (x, 0) ∈ row ∧ ∀ y : ℚ, (x, y) ∈ row → y = 0) := by
    intro col s hs
    refine ⟨(idhistRow col enum s).2, List.mem_map.mpr ⟨s, hs, rfl⟩, ?_, ?_⟩
    · intro x
      rw [show xKeys (idhistRow col enum s).2 = enum from
        map_pair_keys enum (fun z =>
          match histGet s.data z with | some v => col v | none => 0)]
      exact hiff x
    · intro x hx hnone
      have hxe : x ∈ enum := (hiff x).mpr hx
      constructor
      · have hm := map_pair_mem enum
          (fun z => match histGet s.data z with | some v => col v | none => 0) x hxe
        dsimp only at hm
        rw [hnone] at hm
        exact hm
      · intro y hy
        have hval := map_pair_val enum
          (fun z => match histGet s.data z with | some v => col v | none => 0) x y hy
        dsimp only at hval
        rw [hnone] at hval
        exact hval
  intro series hseries
  simp only [plot_idhist, List.mem_cons, List.not_mem_nil, or_false] at hseries
  rcases hseries with rfl | rfl
  · exact key Prod.fst
  · exact key Prod.snd

/-- Witness for C2 at two one-point samples with distinct x-values: in both
output series, sample "b" has a row whose x-keys include x = 1 (contributed
only by sample "a"), with value 0 there. -/
theorem c2_idhist_union_zero_fill_witness :
    (∃ row : List (ℚ × ℚ),
      ("b" ++ "." ++ "Count", row) ∈
        c2Samples.map (idhistRow Prod.fst (xUnion c2Samples)) ∧
      ((1 : ℚ) ∈ xKeys row ↔ (1 : ℚ) ∈ xUnion c2Samples) ∧
      ((5 : ℚ) ∈ xKeys row ↔ (5 : ℚ) ∈ xUnion c2Samples) ∧
      ((1 : ℚ), (0 : ℚ)) ∈ row) ∧
    (∃ row : List (ℚ × ℚ),
      ("b" ++ "." ++ "Count", row) ∈
        c2Samples.map (idhistRow Prod.snd (xUnion c2Samples)) ∧
      ((1 : ℚ), (0 : ℚ)) ∈ row) := by
  have hA := c2_idhist_union_zero_fill c2Samples (xUnion c2Samples)
    (fun _ => Iff.rfl)
    (c2Samples.map (idhistRow Prod.fst (xUnion c2Samples)))
    (List.mem_cons_self _ _)
    ⟨"b", [(5, 6, 7)]⟩ (by decide)
  have hB := c2_idhist_union_zero_fill c2Samples (xUnion c2Samples)
    (fun _ => Iff.rfl)
    (c2Samples.map (idhistRow Prod.snd (xUnion c2Samples)))
    (List.mem_cons_of_mem _ (List.mem_cons_self _ _))
    ⟨"b", [(5, 6, 7)]⟩ (by decide)
  obtain ⟨rowA, hmemA, hkeysA, hzeroA⟩ := hA
  obtain ⟨rowB, hmemB, _, hzeroB⟩ := hB
  exact ⟨⟨rowA, hmemA, hkeysA 1, hkeysA 5,
      (hzeroA 1 (by decide) (by decide)).1⟩,
    ⟨rowB, hmemB, (hzeroB 1 (by decide) (by decide)).1⟩⟩

/-- Claim C4 (amended): after the derived-metric insertion, every key of the
table header configuration exists in every sample's row, provided (i) no
parsed file has read type "unknown", (ii) every parameter name recorded from
one parsed file is recorded from every parsed file (ignored samples also feed
the header table), and (iii) the module run succeeds. -/
theorem c4_header_keys_in_rows (fp : String → Option ℚ) (files : List ModFile)
    (keep : String → Bool) (out : ModOut)
    (hrt : ∀ f ∈ files, get_read_type f.doc ≠ "unknown")
    (hsame : ∀ f ∈ files, ∀ g ∈ files, ∀ n : String,
      paramMemD f.doc n → paramMemD g.doc n)
    (hok : moduleInit fp files keep = Except.ok out) :
    ∀ k ∈ out.headerKeys, ∀ row ∈ out.qcdata, dictMem row.2 k = true := by
  obtain ⟨qcml1, hpop, hhk, hrows⟩ := moduleInit_ok_shape fp files keep out hok
  obtain ⟨hmemq, rfl⟩ := (dictPop_eq_some_iff _ _ _).mp hpop
  intro k hk row hrow
  obtain ⟨x, hx, hxok⟩ := exMapList_ok_mem _ _ _ hrows row hrow
  obtain ⟨rt, hrtget, hproc, hname⟩ := rowStep_ok_shape _ x row hxok
  have hx2 : x ∈ (parsePass fp files).qcdata := List.mem_of_mem_filter hx
  rcases parsePass_fold_qcdata_mem fp files ⟨[], [], []⟩ x hx2 with
    h0 | ⟨g, hg, q0, hgn, hgkv⟩
  · cases h0
  have hrt2 : (x.1, rt) ∈ (parsePass fp files).read_types :=
    dictGet_mem _ _ _ hrtget
  rcases parsePass_fold_read_types_mem fp files ⟨[], [], []⟩ (x.1, rt) hrt2 with
    h0 | ⟨h2, hh2, _, hrteq⟩
  · cases h0
  have hrtok : rt = "single" ∨ rt = "paired-end" := by
    rcases get_read_type_cases h2.doc with hc | hc | hc
    · exact Or.inl (hrteq.trans hc)
    · exact Or.inr (hrteq.trans hc)
    · exact absurd hc (hrt h2 hh2)
  rw [hhk, mem_dictKeys, dictMem_dictSet] at hk
  rcases hk with rfl | hk
  · exact processRow_cc_mem rt x.2 row.2 hproc hrtok
  rw [dictMem_dictSet] at hk
  rcases hk with rfl | hk
  · exact processRow_bs_mem rt x.2 row.2 hproc
  rw [dictMem_filterOut] at hk
  obtain ⟨hkne, hk2⟩ := hk
  rcases (parsePass_fold_qcml_mem fp files ⟨[], [], []⟩ k).mp hk2 with h0 | ⟨f, hf, hpf⟩
  · simp [dictMem] at h0
  have hkv : dictMem x.2 k = true := by
    rw [hgkv]
    exact (parse_qcml_fst_mem fp q0 _ k).mpr (hsame f hf g hg k hpf)
  exact processRow_preserves_mem rt x.2 row.2 hproc k hkne hkv

/-- Claim C4, counterexample: two concrete runs falsify the unconditional
invariant.  (a) A single sample with read type "unknown": 'cluster count' is a
header key but absent from the sample's row.  (b) Two samples where only the
first provides "extra metric": the key enters the header table but is absent
from the second sample's row. -/
theorem c4_header_keys_counterexample :
    get_read_type c4cDoc = "unknown" ∧
    ((moduleInit fpTest c4cFiles keepAll).toOption.map (fun o =>
        (decide ("cluster count" ∈ o.headerKeys),
         o.qcdata.map (fun r => (r.1, dictMem r.2 "cluster count"))))
      = some (true, [("s1", false)])) ∧
    ((moduleInit fpTest c4cFiles2 keepAll).toOption.map (fun o =>
        (decide ("extra metric" ∈ o.headerKeys),
         o.qcdata.map (fun r => (r.1, dictMem r.2 "extra metric"))))
      = some (true, [("s1", true), ("s2", false)])) := by
  refine ⟨by decide, by decide, by decide⟩

/-- Witness for C4 on a successful single-file paired-end run: the header key
'cluster count' is present in the run's (only) row. -/
theorem c4_header_keys_in_rows_witness :
    "cluster count" ∈ c4wOut.headerKeys ∧
    ∃ row, row ∈ c4wOut.qcdata ∧ dictMem row.2 "cluster count" = true := by
  have h := c4_header_keys_in_rows fpTest c4wFiles keepAll c4wOut
    (by intro f hf
        simp only [c4wFiles, List.mem_singleton] at hf
        subst hf
        decide)
    (by intro f hf g hg n hn
        simp only [c4wFiles, List.mem_singleton] at hf hg
        subst hf
        subst hg
        exact hn)
    rfl
  have hmem : "cluster count" ∈ c4wOut.headerKeys := by decide
  cases hq : c4wOut.qcdata with
  | nil =>
    have hfst : c4wOut.qcdata.map (fun r => r.1) = ["s1"] := by decide
    rw [hq] at hfst
    exact absurd hfst (by simp)
  | cons r t =>
    have hr : r ∈ c4wOut.qcdata := by
      rw [hq]
      exact List.mem_cons_self r t
    exact ⟨hmem, r, List.mem_cons_self r t, h "cluster count" hmem r hr⟩
